import Mathlib

/-!
Verification of the reviewer-assignment core of the Code-review-assigner
service.  The Python source keeps four relational tables (teams, users,
pull requests, reviewer assignments); we embed each table as a list of
records and each CRUD or service function as a pure Lean function that
threads the database value.  Randomness (random.sample, random.choice)
is modelled by an oracle g : Nat -> Nat supplying the index drawn at
each step, so theorems quantify over every possible random outcome.
Timestamps are natural numbers passed in as a parameter named now.
-/

namespace CRA

/-- Status of a pull request, from src/models/pull_request.py. -/
inductive PRStatus where
  | OPEN
  | MERGED
deriving DecidableEq, Repr

/-- Row of the users table, from src/models/user.py. -/
structure User where
  user_id : String
  username : String
  team_name : String
  is_active : Bool
deriving DecidableEq, Repr

/-- Row of the pull_requests table, from src/models/pull_request.py. -/
structure PullRequest where
  pull_request_id : String
  pull_request_name : String
  author_id : String
  status : PRStatus
  created_at : Nat
  merged_at : Option Nat
deriving DecidableEq, Repr

/-- Row of the pr_reviewers table, from src/models/pr_reviewer.py. -/
structure PRReviewer where
  pull_request_id : String
  reviewer_id : String
  assigned_at : Nat
deriving DecidableEq, Repr

/-- The relational store: one list per table, rows in insertion order
(queries in the source iterate in this order). -/
structure DB where
  teams : List String
  users : List User
  prs : List PullRequest
  assignments : List PRReviewer
deriving DecidableEq, Repr

/-- Error codes from src/schemas/error.py. -/
inductive ErrorCode where
  | TEAM_EXISTS
  | PR_EXISTS
  | PR_MERGED
  | NOT_ASSIGNED
  | NO_CANDIDATE
  | NOT_FOUND
deriving DecidableEq, Repr

/-- Remove the first element satisfying p, if any; models deleting the
single row returned by query(...).first() in SQLAlchemy. -/
def removeFirst (p : α → Bool) : List α → List α
  | [] => []
  | a :: l => if p a then l else a :: removeFirst p l

/-- Replace the first element satisfying p by b, if any; models mutating
the single ORM object returned by query(...).first(). -/
def replaceFirst (p : α → Bool) (b : α) : List α → List α
  | [] => []
  | a :: l => if p a then b :: l else a :: replaceFirst p b l

/-- Sampling without replacement driven by the index oracle g: models
random.sample(l, k) in src/services/reviewer_assignment_service.py.
Each step draws the element at index g 0 modulo the remaining length and
removes it before recursing with the shifted oracle. -/
def randomSample (g : Nat → Nat) : List α → Nat → List α
  | _, 0 => []
  | [], _ + 1 => []
  | a :: l, k + 1 =>
    let i : Fin (a :: l).length := ⟨g 0 % (a :: l).length, Nat.mod_lt _ (Nat.succ_pos _)⟩
    (a :: l).get i :: randomSample (fun n => g (n + 1)) ((a :: l).eraseIdx i.val) k

namespace UserCRUD

/-- UserCRUD.get_by_id in src/crud/user.py: first users row with the key. -/
def get_by_id (db : DB) (user_id : String) : Option User :=
  db.users.find? (fun u => u.user_id == user_id)

/-- UserCRUD.get_active_team_members in src/crud/user.py.  The base
query keeps the active members of the team; the optional exclusion id is
only applied when it is truthy in Python, i.e. present and nonempty. -/
def get_active_team_members (db : DB) (team_name : String) :
    Option String → List User
  | none => db.users.filter (fun u => u.team_name == team_name && u.is_active)
  | some e =>
      if e = "" then db.users.filter (fun u => u.team_name == team_name && u.is_active)
      else (db.users.filter (fun u => u.team_name == team_name && u.is_active)).filter
        (fun u => u.user_id != e)

/-- UserCRUD.create_or_update in src/crud/user.py: update all fields of
the existing row keyed by user_id, or append a fresh row. -/
def create_or_update (db : DB) (user_id username team_name : String)
    (is_active : Bool) : DB :=
  let u : User := ⟨user_id, username, team_name, is_active⟩
  match get_by_id db user_id with
  | some _ =>
      { db with users := replaceFirst (fun v => v.user_id == user_id) u db.users }
  | none =>
      { db with users := db.users ++ [u] }

end UserCRUD

namespace TeamCRUD

/-- BaseCRUD.exists specialised to teams (src/crud/base.py, src/crud/team.py). -/
def team_exists (db : DB) (team_name : String) : Bool :=
  (db.teams.find? (fun t => t == team_name)).isSome

/-- TeamCRUD.create_team in src/crud/team.py. -/
def create_team (db : DB) (team_name : String) : DB :=
  { db with teams := db.teams ++ [team_name] }

end TeamCRUD

namespace PRReviewerCRUD

/-- PRReviewerCRUD.assign_reviewer in src/crud/pr_reviewer.py: insert a
new assignment row. -/
def assign_reviewer (db : DB) (now : Nat) (pull_request_id reviewer_id : String) : DB :=
  { db with assignments := db.assignments ++ [⟨pull_request_id, reviewer_id, now⟩] }

/-- PRReviewerCRUD.remove_reviewer in src/crud/pr_reviewer.py: delete
the first row with the composite key, returning whether one was found. -/
def remove_reviewer (db : DB) (pull_request_id reviewer_id : String) : DB × Bool :=
  let p := fun (a : PRReviewer) =>
    a.pull_request_id == pull_request_id && a.reviewer_id == reviewer_id
  ({ db with assignments := removeFirst p db.assignments }, db.assignments.any p)

/-- PRReviewerCRUD.get_reviewer_ids in src/crud/pr_reviewer.py. -/
def get_reviewer_ids (db : DB) (pull_request_id : String) : List String :=
  (db.assignments.filter (fun a => a.pull_request_id == pull_request_id)).map
    PRReviewer.reviewer_id

/-- PRReviewerCRUD.is_assigned in src/crud/pr_reviewer.py. -/
def is_assigned (db : DB) (pull_request_id reviewer_id : String) : Bool :=
  db.assignments.any (fun a =>
    a.pull_request_id == pull_request_id && a.reviewer_id == reviewer_id)

end PRReviewerCRUD

namespace PullRequestCRUD

/-- PullRequestCRUD.get_by_id in src/crud/pull_request.py. -/
def get_by_id (db : DB) (pull_request_id : String) : Option PullRequest :=
  db.prs.find? (fun p => p.pull_request_id == pull_request_id)

/-- BaseCRUD.exists specialised to pull requests. -/
def pr_exists (db : DB) (pull_request_id : String) : Bool :=
  (get_by_id db pull_request_id).isSome

/-- PullRequestCRUD.create_pr in src/crud/pull_request.py: insert a row
with status OPEN, created_at now and no merge timestamp. -/
def create_pr (db : DB) (now : Nat)
    (pull_request_id pull_request_name author_id : String) : DB × PullRequest :=
  let pr : PullRequest := ⟨pull_request_id, pull_request_name, author_id, .OPEN, now, none⟩
  ({ db with prs := db.prs ++ [pr] }, pr)

/-- PullRequestCRUD.merge_pr in src/crud/pull_request.py: idempotent
merge, setting MERGED and the merge timestamp only when still open. -/
def merge_pr (db : DB) (now : Nat) (pull_request_id : String) :
    DB × Option PullRequest :=
  match get_by_id db pull_request_id with
  | none => (db, none)
  | some pr =>
    if pr.status = .MERGED then (db, some pr)
    else
      let pr' := { pr with status := PRStatus.MERGED, merged_at := some now }
      let prs' := replaceFirst (fun p => p.pull_request_id == pull_request_id) pr' db.prs
      ({ db with prs := prs' }, some pr')

/-- PullRequestCRUD.get_prs_by_reviewer in src/crud/pull_request.py: the
join of pull_requests with pr_reviewers filtered on the reviewer id.
The composite primary key makes the join return each PR at most once, so
it coincides with this filter. -/
def get_prs_by_reviewer (db : DB) (reviewer_id : String) : List PullRequest :=
  db.prs.filter (fun p => db.assignments.any (fun a =>
    a.pull_request_id == p.pull_request_id && a.reviewer_id == reviewer_id))

end PullRequestCRUD

namespace ReviewerAssignmentService

/-- ReviewerAssignmentService.select_reviewers in
src/services/reviewer_assignment_service.py: draw up to max_count
distinct active team members other than the author. -/
def select_reviewers (g : Nat → Nat) (db : DB) (team_name author_id : String)
    (max_count : Nat) : List String :=
  let candidates := UserCRUD.get_active_team_members db team_name (some author_id)
  if candidates.isEmpty then []
  else
    let selected_count := min candidates.length max_count
    (randomSample g candidates selected_count).map User.user_id

/-- ReviewerAssignmentService.assign_reviewers_to_pr in
src/services/reviewer_assignment_service.py: persist one assignment row
per selected reviewer id, in order. -/
def assign_reviewers_to_pr (db : DB) (now : Nat) (pull_request_id : String)
    (reviewer_ids : List String) : DB :=
  reviewer_ids.foldl
    (fun d rid => PRReviewerCRUD.assign_reviewer d now pull_request_id rid) db

/-- The filtered replacement pool computed inside
ReviewerAssignmentService.find_replacement_reviewer: active members of
the team of the old reviewer, minus the author of the PR and all
currently assigned reviewers. -/
def replacementPool (db : DB) (old_reviewer : User) (pr : PullRequest) : List User :=
  let current_reviewer_ids := PRReviewerCRUD.get_reviewer_ids db pr.pull_request_id
  let candidates := UserCRUD.get_active_team_members db old_reviewer.team_name none
  let exclude_ids := pr.author_id :: current_reviewer_ids
  candidates.filter (fun c => !(exclude_ids.contains c.user_id))

/-- ReviewerAssignmentService.find_replacement_reviewer in
src/services/reviewer_assignment_service.py: resolve the old reviewer,
build the filtered pool, and pick one member at random; the only failure
is NO_CANDIDATE, raised when the old reviewer is unknown or the pool is
empty. -/
def find_replacement_reviewer (g : Nat → Nat) (db : DB) (old_reviewer_id : String)
    (pr : PullRequest) : Except ErrorCode String :=
  match UserCRUD.get_by_id db old_reviewer_id with
  | none => .error .NO_CANDIDATE
  | some old_reviewer =>
    match replacementPool db old_reviewer pr with
    | [] => .error .NO_CANDIDATE
    | a :: rest =>
      let l := a :: rest
      .ok ((l.get ⟨g 0 % l.length, Nat.mod_lt _ (Nat.succ_pos _)⟩).user_id)

/-- ReviewerAssignmentService.reassign_reviewer in
src/services/reviewer_assignment_service.py: delete the old assignment
row, then insert the new one. -/
def reassign_reviewer (db : DB) (now : Nat)
    (pull_request_id old_reviewer_id new_reviewer_id : String) : DB :=
  let removed := (PRReviewerCRUD.remove_reviewer db pull_request_id old_reviewer_id).1
  PRReviewerCRUD.assign_reviewer removed now pull_request_id new_reviewer_id

end ReviewerAssignmentService

/-- Response schema for a pull request, from src/schemas/pull_request.py:
the stored PR fields plus the reviewer id list read back from storage. -/
structure PullRequestSchema where
  pull_request_id : String
  pull_request_name : String
  author_id : String
  status : PRStatus
  assigned_reviewers : List String
  createdAt : Nat
  mergedAt : Option Nat
deriving DecidableEq, Repr

/-- Short response schema for a pull request. -/
structure PullRequestShortSchema where
  pull_request_id : String
  pull_request_name : String
  author_id : String
  status : PRStatus
deriving DecidableEq, Repr

/-- Response of the user-reviews endpoint, from src/schemas/review.py. -/
structure UserReviewsResponse where
  user_id : String
  pull_requests : List PullRequestShortSchema
deriving DecidableEq, Repr

namespace PullRequestService

/-- PullRequestService._build_pr_schema in
src/services/pull_request_service.py: the PR fields together with the
reviewer ids fetched from the assignments table. -/
def build_pr_schema (db : DB) (pr : PullRequest) : PullRequestSchema :=
  ⟨pr.pull_request_id, pr.pull_request_name, pr.author_id, pr.status,
   PRReviewerCRUD.get_reviewer_ids db pr.pull_request_id, pr.created_at, pr.merged_at⟩

/-- PullRequestService.create_pr_with_reviewers in
src/services/pull_request_service.py: reject duplicate PR ids, then
unknown authors, then create the PR, select up to 2 reviewers from the
team of the author and persist them, and answer with the reviewer list
read back from storage. -/
def create_pr_with_reviewers (g : Nat → Nat) (db : DB) (now : Nat)
    (pull_request_id pull_request_name author_id : String) :
    DB × Except ErrorCode PullRequestSchema :=
  if PullRequestCRUD.pr_exists db pull_request_id then (db, .error .PR_EXISTS)
  else
    match UserCRUD.get_by_id db author_id with
    | none => (db, .error .NOT_FOUND)
    | some author =>
      let c := PullRequestCRUD.create_pr db now pull_request_id pull_request_name author_id
      let reviewer_ids := ReviewerAssignmentService.select_reviewers g c.1
        author.team_name author_id 2
      let db2 := ReviewerAssignmentService.assign_reviewers_to_pr c.1 now
        pull_request_id reviewer_ids
      (db2, .ok (build_pr_schema db2 c.2))

/-- PullRequestService.merge_pr in src/services/pull_request_service.py:
delegate to the idempotent CRUD merge and translate a missing PR into
NOT_FOUND. -/
def merge_pr (db : DB) (now : Nat) (pull_request_id : String) :
    DB × Except ErrorCode PullRequestSchema :=
  let r := PullRequestCRUD.merge_pr db now pull_request_id
  match r.2 with
  | none => (r.1, .error .NOT_FOUND)
  | some pr => (r.1, .ok (build_pr_schema r.1 pr))

/-- PullRequestService.reassign_reviewer in
src/services/pull_request_service.py: check NOT_FOUND, then PR_MERGED,
then NOT_ASSIGNED, then delegate to find_replacement_reviewer, and only
then perform the delete-and-insert swap. -/
def reassign_reviewer (g : Nat → Nat) (db : DB) (now : Nat)
    (pull_request_id old_reviewer_id : String) :
    DB × Except ErrorCode (PullRequestSchema × String) :=
  match PullRequestCRUD.get_by_id db pull_request_id with
  | none => (db, .error .NOT_FOUND)
  | some pr =>
    if pr.status = .MERGED then (db, .error .PR_MERGED)
    else if !(PRReviewerCRUD.is_assigned db pull_request_id old_reviewer_id) then
      (db, .error .NOT_ASSIGNED)
    else
      match ReviewerAssignmentService.find_replacement_reviewer g db old_reviewer_id pr with
      | .error e => (db, .error e)
      | .ok new_reviewer_id =>
        let db' := ReviewerAssignmentService.reassign_reviewer db now
          pull_request_id old_reviewer_id new_reviewer_id
        (db', .ok (build_pr_schema db' pr, new_reviewer_id))

/-- PullRequestService.get_user_reviews in
src/services/pull_request_service.py: all PRs on which the user is a
reviewer, in short form; no existence check on the user id. -/
def get_user_reviews (db : DB) (user_id : String) : UserReviewsResponse :=
  ⟨user_id, (PullRequestCRUD.get_prs_by_reviewer db user_id).map
    (fun p => ⟨p.pull_request_id, p.pull_request_name, p.author_id, p.status⟩)⟩

end PullRequestService

/-- Member entry of the create-team request, from src/schemas/team.py. -/
structure TeamMember where
  user_id : String
  username : String
  is_active : Bool
deriving DecidableEq, Repr

namespace TeamService

/-- TeamService.create_team_with_members in src/services/team_service.py:
reject a taken team name, otherwise create the team and upsert every
listed member into it, in list order. -/
def create_team_with_members (db : DB) (team_name : String)
    (members : List TeamMember) : DB × Except ErrorCode Unit :=
  if TeamCRUD.team_exists db team_name then (db, .error .TEAM_EXISTS)
  else
    let db1 := TeamCRUD.create_team db team_name
    let db2 := members.foldl
      (fun d m => UserCRUD.create_or_update d m.user_id m.username team_name m.is_active) db1
    (db2, .ok ())

end TeamService

/-! Helper lemmas about removeFirst, replaceFirst and find?. -/

theorem removeFirst_sublist (p : α → Bool) (l : List α) :
    List.Sublist (removeFirst p l) l := by
  induction l with
  | nil => simp [removeFirst]
  | cons a t ih =>
    by_cases h : p a = true
    · simp [removeFirst, h]
    · simp only [removeFirst, h, if_false, Bool.false_eq_true]
      exact List.Sublist.cons₂ a ih

theorem removeFirst_subset (p : α → Bool) (l : List α) : removeFirst p l ⊆ l :=
  (removeFirst_sublist p l).subset

theorem length_removeFirst_add_one (p : α → Bool) (l : List α)
    (h : ∃ a ∈ l, p a = true) : (removeFirst p l).length + 1 = l.length := by
  induction l with
  | nil => simp at h
  | cons a t ih =>
    by_cases ha : p a = true
    · simp [removeFirst, ha]
    · obtain ⟨b, hb, hpb⟩ := h
      rcases List.mem_cons.mp hb with hb | hb
      · exact absurd (hb ▸ hpb) ha
      · simp only [removeFirst, ha, if_false, Bool.false_eq_true, List.length_cons]
        rw [ih ⟨b, hb, hpb⟩]

theorem removeFirst_of_forall_not (p : α → Bool) (l : List α)
    (h : ∀ a ∈ l, p a = false) : removeFirst p l = l := by
  induction l with
  | nil => rfl
  | cons a t ih =>
    simp only [removeFirst, h a (by simp), if_false, Bool.false_eq_true]
    rw [ih (fun b hb => h b (by simp [hb]))]

theorem removeFirst_congr (p q : α → Bool) (l : List α)
    (h : ∀ a ∈ l, p a = q a) : removeFirst p l = removeFirst q l := by
  induction l with
  | nil => rfl
  | cons a t ih =>
    simp only [removeFirst, h a (by simp)]
    by_cases hq : q a = true
    · simp [hq]
    · simp only [hq, if_false, Bool.false_eq_true]
      rw [ih (fun b hb => h b (by simp [hb]))]

theorem filter_removeFirst_of_imp (p q : α → Bool) (l : List α)
    (h : ∀ a, p a = true → q a = true) :
    (removeFirst p l).filter q = removeFirst p (l.filter q) := by
  induction l with
  | nil => rfl
  | cons a t ih =>
    by_cases hp : p a = true
    · simp [removeFirst, hp, List.filter_cons, h a hp]
    · by_cases hq : q a = true
      · simp [removeFirst, hp, List.filter_cons, hq, ih]
      · simp [removeFirst, hp, List.filter_cons, hq, ih]

theorem filter_removeFirst_of_excl (p q : α → Bool) (l : List α)
    (h : ∀ a, p a = true → q a = false) :
    (removeFirst p l).filter q = l.filter q := by
  induction l with
  | nil => rfl
  | cons a t ih =>
    by_cases hp : p a = true
    · simp [removeFirst, hp, List.filter_cons, h a hp]
    · simp [removeFirst, hp, List.filter_cons, ih]

theorem map_removeFirst (f : α → β) (q : β → Bool) (l : List α) :
    (removeFirst (fun a => q (f a)) l).map f = removeFirst q (l.map f) := by
  induction l with
  | nil => rfl
  | cons a t ih =>
    by_cases hq : q (f a) = true
    · simp [removeFirst, hq]
    · simp [removeFirst, hq, ih]

theorem find?_replaceFirst_self (p : α → Bool) (b : α) (l : List α)
    (hb : p b = true) (h : ∃ a ∈ l, p a = true) :
    (replaceFirst p b l).find? p = some b := by
  induction l with
  | nil => simp at h
  | cons a t ih =>
    by_cases ha : p a = true
    · simp only [replaceFirst, ha, if_true]
      exact List.find?_cons_of_pos _ hb
    · obtain ⟨c, hc, hpc⟩ := h
      rcases List.mem_cons.mp hc with hc | hc
      · exact absurd (hc ▸ hpc) ha
      · simp only [replaceFirst, ha, if_false, Bool.false_eq_true]
        rw [List.find?_cons_of_neg _ ha, ih ⟨c, hc, hpc⟩]

theorem find?_replaceFirst_other (p q : α → Bool) (b : α) (l : List α)
    (hpq : ∀ a, p a = true → q a = false) (hb : q b = false) :
    (replaceFirst p b l).find? q = l.find? q := by
  induction l with
  | nil => rfl
  | cons a t ih =>
    by_cases hp : p a = true
    · simp only [replaceFirst, hp, if_true]
      rw [List.find?_cons_of_neg _ (by simp [hb]),
        List.find?_cons_of_neg _ (by simp [hpq a hp])]
    · by_cases hq : q a = true
      · simp only [replaceFirst, hp, if_false, Bool.false_eq_true]
        rw [List.find?_cons_of_pos _ hq, List.find?_cons_of_pos _ hq]
      · simp only [replaceFirst, hp, if_false, Bool.false_eq_true]
        rw [List.find?_cons_of_neg _ hq, List.find?_cons_of_neg _ hq, ih]

theorem mem_replaceFirst (p : α → Bool) (b x : α) (l : List α)
    (h : x ∈ replaceFirst p b l) : x = b ∨ x ∈ l := by
  induction l with
  | nil => simp [replaceFirst] at h
  | cons a t ih =>
    by_cases hp : p a = true
    · simp only [replaceFirst, hp, if_true] at h
      rcases List.mem_cons.mp h with h | h
      · exact Or.inl h
      · exact Or.inr (by simp [h])
    · simp only [replaceFirst, hp, if_false, Bool.false_eq_true] at h
      rcases List.mem_cons.mp h with h | h
      · exact Or.inr (by simp [h])
      · rcases ih h with h | h
        · exact Or.inl h
        · exact Or.inr (by simp [h])

theorem map_replaceFirst (f : α → β) (p : α → Bool) (b : α) (l : List α)
    (h : ∀ a, p a = true → f a = f b) :
    (replaceFirst p b l).map f = l.map f := by
  induction l with
  | nil => rfl
  | cons a t ih =>
    by_cases hp : p a = true
    · simp [replaceFirst, hp, h a hp]
    · simp [replaceFirst, hp, ih]

theorem find?_append_none (p : α → Bool) (l m : List α)
    (h : l.find? p = none) : (l ++ m).find? p = m.find? p := by
  induction l with
  | nil => rfl
  | cons a t ih =>
    rw [List.find?_eq_none] at h
    have ha : ¬ p a = true := h a (by simp)
    rw [List.cons_append, List.find?_cons_of_neg _ ha]
    exact ih (List.find?_eq_none.mpr (fun x hx => h x (by simp [hx])))

/-! Helper lemmas about randomSample. -/

theorem perm_get_cons_eraseIdx :
    ∀ (l : List α) (i : Nat) (h : i < l.length),
      List.Perm l (l.get ⟨i, h⟩ :: l.eraseIdx i) := by
  intro l
  induction l with
  | nil => intro i h; simp at h
  | cons a t ih =>
    intro i h
    cases i with
    | zero => simp [List.eraseIdx]
    | succ j =>
      have hj : j < t.length := Nat.lt_of_succ_lt_succ h
      have step : List.Perm (a :: t) (a :: (t.get ⟨j, hj⟩ :: t.eraseIdx j)) :=
        List.Perm.cons a (ih j hj)
      exact step.trans (List.Perm.swap _ _ _)

theorem subperm_cons_of_subperm (a : α) {l₁ l₂ : List α}
    (h : List.Subperm l₁ l₂) : List.Subperm (a :: l₁) (a :: l₂) :=
  (List.subperm_cons a).mpr h

theorem randomSample_subperm (g : Nat → Nat) (l : List α) (k : Nat) :
    List.Subperm (randomSample g l k) l := by
  induction k generalizing g l with
  | zero => simp [randomSample]
  | succ k ih =>
    cases l with
    | nil => simp [randomSample]
    | cons a t =>
      simp only [randomSample]
      have hperm := perm_get_cons_eraseIdx (a :: t) (g 0 % (a :: t).length)
        (Nat.mod_lt _ (Nat.succ_pos _))
      refine List.Subperm.trans ?_ hperm.symm.subperm
      exact subperm_cons_of_subperm _ (ih _ _)

theorem length_randomSample (g : Nat → Nat) (l : List α) (k : Nat) :
    (randomSample g l k).length = min k l.length := by
  induction k generalizing g l with
  | zero => simp [randomSample]
  | succ k ih =>
    cases l with
    | nil => simp [randomSample]
    | cons a t =>
      simp only [randomSample]
      have h1 := List.length_eraseIdx_add_one
        (l := a :: t) (i := g 0 % (a :: t).length) (Nat.mod_lt _ (Nat.succ_pos _))
      rw [List.length_cons, ih]
      have h2 : (a :: t).length = t.length + 1 := rfl
      omega

theorem subperm_map_of_subperm (f : α → β) {l₁ l₂ : List α}
    (h : List.Subperm l₁ l₂) : List.Subperm (l₁.map f) (l₂.map f) := by
  obtain ⟨m, hm, hs⟩ := h
  exact ⟨m.map f, hm.map f, hs.map f⟩

theorem nodup_of_subperm {l₁ l₂ : List α}
    (h : List.Subperm l₁ l₂) (hn : l₂.Nodup) : l₁.Nodup := by
  obtain ⟨m, hm, hs⟩ := h
  exact (List.Perm.nodup_iff hm).mp (List.Nodup.sublist hs hn)

/-! Lemmas about the candidate queries. -/

theorem mem_get_active_team_members {db : DB} {t : String} {e : Option String} {u : User}
    (h : u ∈ UserCRUD.get_active_team_members db t e) :
    u ∈ db.users ∧ u.team_name = t ∧ u.is_active = true := by
  have base : ∀ v : User,
      v ∈ db.users.filter (fun w => w.team_name == t && w.is_active) →
      v ∈ db.users ∧ v.team_name = t ∧ v.is_active = true := by
    intro v hv
    rw [List.mem_filter, Bool.and_eq_true, beq_iff_eq] at hv
    exact ⟨hv.1, hv.2.1, by simpa using hv.2.2⟩
  cases e with
  | none => exact base u h
  | some s =>
    by_cases hs : s = ""
    · rw [UserCRUD.get_active_team_members, if_pos hs] at h
      exact base u h
    · rw [UserCRUD.get_active_team_members, if_neg hs] at h
      exact base u (List.mem_filter.mp h).1

theorem mem_get_active_team_members_ne {db : DB} {t s : String} {u : User}
    (h : u ∈ UserCRUD.get_active_team_members db t (some s)) (hs : s ≠ "") :
    u.user_id ≠ s := by
  rw [UserCRUD.get_active_team_members, if_neg hs] at h
  have := (List.mem_filter.mp h).2
  simpa using this

theorem get_active_team_members_sublist (db : DB) (t : String) (e : Option String) :
    List.Sublist (UserCRUD.get_active_team_members db t e) db.users := by
  cases e with
  | none => exact List.filter_sublist _
  | some s =>
    by_cases hs : s = ""
    · rw [UserCRUD.get_active_team_members, if_pos hs]
      exact List.filter_sublist _
    · rw [UserCRUD.get_active_team_members, if_neg hs]
      exact List.Sublist.trans (List.filter_sublist _) (List.filter_sublist _)

/-! Lemmas about select_reviewers. -/

theorem select_reviewers_length (g : Nat → Nat) (db : DB) (t a : String) (mc : Nat) :
    (ReviewerAssignmentService.select_reviewers g db t a mc).length
      = min (UserCRUD.get_active_team_members db t (some a)).length mc := by
  unfold ReviewerAssignmentService.select_reviewers
  by_cases h : (UserCRUD.get_active_team_members db t (some a)).isEmpty = true
  · rw [if_pos h]
    rw [List.isEmpty_iff] at h
    simp [h]
  · rw [if_neg h]
    rw [List.length_map, length_randomSample]
    omega

theorem select_reviewers_mem {g : Nat → Nat} {db : DB} {t a : String} {mc : Nat}
    {uid : String} (h : uid ∈ ReviewerAssignmentService.select_reviewers g db t a mc) :
    ∃ u ∈ UserCRUD.get_active_team_members db t (some a), u.user_id = uid := by
  unfold ReviewerAssignmentService.select_reviewers at h
  by_cases he : (UserCRUD.get_active_team_members db t (some a)).isEmpty = true
  · rw [if_pos he] at h
    simp at h
  · rw [if_neg he] at h
    rw [List.mem_map] at h
    obtain ⟨u, hu, huid⟩ := h
    exact ⟨u, (randomSample_subperm _ _ _).subset hu, huid⟩

theorem select_reviewers_nodup {g : Nat → Nat} {db : DB} {t a : String} {mc : Nat}
    (hnd : (db.users.map User.user_id).Nodup) :
    (ReviewerAssignmentService.select_reviewers g db t a mc).Nodup := by
  unfold ReviewerAssignmentService.select_reviewers
  by_cases he : (UserCRUD.get_active_team_members db t (some a)).isEmpty = true
  · rw [if_pos he]; exact List.nodup_nil
  · rw [if_neg he]
    have h1 : List.Sublist
        ((UserCRUD.get_active_team_members db t (some a)).map User.user_id)
        (db.users.map User.user_id) :=
      (get_active_team_members_sublist db t (some a)).map User.user_id
    have h2 := subperm_map_of_subperm User.user_id
      (randomSample_subperm g (UserCRUD.get_active_team_members db t (some a))
        (min (UserCRUD.get_active_team_members db t (some a)).length mc))
    exact nodup_of_subperm h2 (List.Nodup.sublist h1 hnd)

/-! Lemmas about the assignment-table operations. -/

theorem assign_many_assignments (db : DB) (now : Nat) (pid : String) (rids : List String) :
    (ReviewerAssignmentService.assign_reviewers_to_pr db now pid rids).assignments
      = db.assignments ++ rids.map (fun r => ⟨pid, r, now⟩) := by
  induction rids generalizing db with
  | nil => simp [ReviewerAssignmentService.assign_reviewers_to_pr]
  | cons r rs ih =>
    show (ReviewerAssignmentService.assign_reviewers_to_pr
      (PRReviewerCRUD.assign_reviewer db now pid r) now pid rs).assignments = _
    rw [ih]
    simp [PRReviewerCRUD.assign_reviewer]

theorem assign_many_prs (db : DB) (now : Nat) (pid : String) (rids : List String) :
    (ReviewerAssignmentService.assign_reviewers_to_pr db now pid rids).prs = db.prs := by
  induction rids generalizing db with
  | nil => rfl
  | cons r rs ih =>
    show (ReviewerAssignmentService.assign_reviewers_to_pr
      (PRReviewerCRUD.assign_reviewer db now pid r) now pid rs).prs = _
    rw [ih]; rfl

theorem assign_many_users (db : DB) (now : Nat) (pid : String) (rids : List String) :
    (ReviewerAssignmentService.assign_reviewers_to_pr db now pid rids).users = db.users := by
  induction rids generalizing db with
  | nil => rfl
  | cons r rs ih =>
    show (ReviewerAssignmentService.assign_reviewers_to_pr
      (PRReviewerCRUD.assign_reviewer db now pid r) now pid rs).users = _
    rw [ih]; rfl

theorem filter_map_rows (pid pid' : String) (now : Nat) (rids : List String) :
    ((rids.map (fun r => (⟨pid, r, now⟩ : PRReviewer))).filter
      (fun a => a.pull_request_id == pid')).map PRReviewer.reviewer_id
      = if pid' = pid then rids else [] := by
  induction rids with
  | nil => simp
  | cons r rs ih =>
    by_cases h : pid' = pid
    · subst h
      simp [List.filter_cons, ih]
    · have hrow : ((⟨pid, r, now⟩ : PRReviewer).pull_request_id == pid') = false := by
        simp only [PRReviewer.pull_request_id]
        exact beq_eq_false_iff_ne.mpr (fun hc => h hc.symm)
      simp [List.filter_cons, hrow, ih, h]

theorem get_reviewer_ids_assign_many (db : DB) (now : Nat) (pid : String)
    (rids : List String) (pid' : String) :
    PRReviewerCRUD.get_reviewer_ids
        (ReviewerAssignmentService.assign_reviewers_to_pr db now pid rids) pid'
      = PRReviewerCRUD.get_reviewer_ids db pid' ++ (if pid' = pid then rids else []) := by
  unfold PRReviewerCRUD.get_reviewer_ids
  rw [assign_many_assignments, List.filter_append, List.map_append, filter_map_rows]

theorem get_reviewer_ids_remove (db : DB) (pid rid pid' : String) :
    PRReviewerCRUD.get_reviewer_ids (PRReviewerCRUD.remove_reviewer db pid rid).1 pid'
      = if pid' = pid
        then removeFirst (fun s => s == rid) (PRReviewerCRUD.get_reviewer_ids db pid')
        else PRReviewerCRUD.get_reviewer_ids db pid' := by
  unfold PRReviewerCRUD.get_reviewer_ids PRReviewerCRUD.remove_reviewer
  by_cases h : pid' = pid
  · subst h
    rw [if_pos rfl]
    rw [filter_removeFirst_of_imp _ _ _
      (by intro a ha; exact (Bool.and_eq_true _ _).mp ha |>.1)]
    rw [removeFirst_congr _ (fun a => a.reviewer_id == rid) _
      (by
        intro a ha
        have := (List.mem_filter.mp ha).2
        simp only [this, Bool.true_and])]
    rw [map_removeFirst PRReviewer.reviewer_id (fun s => s == rid)]
  · rw [if_neg h]
    rw [filter_removeFirst_of_excl _ _ _
      (by
        intro a ha
        have h1 : a.pull_request_id = pid := by
          have := (Bool.and_eq_true _ _).mp ha |>.1
          exact beq_iff_eq.mp this
        rw [h1]
        exact beq_eq_false_iff_ne.mpr (fun hc => h hc.symm))]

theorem remove_reviewer_prs (db : DB) (pid rid : String) :
    (PRReviewerCRUD.remove_reviewer db pid rid).1.prs = db.prs := rfl

theorem remove_reviewer_users (db : DB) (pid rid : String) :
    (PRReviewerCRUD.remove_reviewer db pid rid).1.users = db.users := rfl

theorem is_assigned_iff_mem (db : DB) (pid rid : String) :
    PRReviewerCRUD.is_assigned db pid rid = true
      ↔ rid ∈ PRReviewerCRUD.get_reviewer_ids db pid := by
  unfold PRReviewerCRUD.is_assigned PRReviewerCRUD.get_reviewer_ids
  rw [List.any_eq_true]
  constructor
  · rintro ⟨a, ha, hpa⟩
    rw [Bool.and_eq_true] at hpa
    rw [List.mem_map]
    refine ⟨a, List.mem_filter.mpr ⟨ha, hpa.1⟩, beq_iff_eq.mp hpa.2⟩
  · intro h
    rw [List.mem_map] at h
    obtain ⟨a, ha, hrid⟩ := h
    obtain ⟨ha1, ha2⟩ := List.mem_filter.mp ha
    exact ⟨a, ha1, by rw [Bool.and_eq_true]; exact ⟨ha2, beq_iff_eq.mpr hrid⟩⟩

/-! Lemmas about the lookups and the replacement search. -/

theorem user_get_some {db : DB} {uid : String} {u : User}
    (h : UserCRUD.get_by_id db uid = some u) : u ∈ db.users ∧ u.user_id = uid := by
  have h' : db.users.find? (fun v => v.user_id == uid) = some u := h
  have hbeq := List.find?_some h'
  exact ⟨List.mem_of_find?_eq_some h', beq_iff_eq.mp hbeq⟩

theorem pr_get_some {db : DB} {pid : String} {pr : PullRequest}
    (h : PullRequestCRUD.get_by_id db pid = some pr) :
    pr ∈ db.prs ∧ pr.pull_request_id = pid := by
  have h' : db.prs.find? (fun p => p.pull_request_id == pid) = some pr := h
  have hbeq := List.find?_some h'
  exact ⟨List.mem_of_find?_eq_some h', beq_iff_eq.mp hbeq⟩

theorem mem_replacementPool {db : DB} {old_reviewer : User} {pr : PullRequest} {u : User}
    (h : u ∈ ReviewerAssignmentService.replacementPool db old_reviewer pr) :
    u ∈ db.users ∧ u.is_active = true ∧ u.team_name = old_reviewer.team_name
      ∧ u.user_id ≠ pr.author_id
      ∧ u.user_id ∉ PRReviewerCRUD.get_reviewer_ids db pr.pull_request_id := by
  unfold ReviewerAssignmentService.replacementPool at h
  rw [List.mem_filter] at h
  obtain ⟨hmem, hpred⟩ := h
  obtain ⟨h1, h2, h3⟩ := mem_get_active_team_members hmem
  have hnotin : u.user_id ∉
      pr.author_id :: PRReviewerCRUD.get_reviewer_ids db pr.pull_request_id := by
    simpa using hpred
  rw [List.mem_cons] at hnotin
  push_neg at hnotin
  exact ⟨h1, h3, h2, hnotin.1, hnotin.2⟩

theorem find_replacement_ok {g : Nat → Nat} {db : DB} {old_id : String}
    {pr : PullRequest} {new_id : String}
    (h : ReviewerAssignmentService.find_replacement_reviewer g db old_id pr = .ok new_id) :
    ∃ oldu, UserCRUD.get_by_id db old_id = some oldu
      ∧ ∃ u ∈ ReviewerAssignmentService.replacementPool db oldu pr, u.user_id = new_id := by
  cases ho : UserCRUD.get_by_id db old_id with
  | none =>
    simp only [ReviewerAssignmentService.find_replacement_reviewer, ho] at h
    exact Except.noConfusion h
  | some oldu =>
    cases hp : ReviewerAssignmentService.replacementPool db oldu pr with
    | nil =>
      simp only [ReviewerAssignmentService.find_replacement_reviewer, ho, hp] at h
      exact Except.noConfusion h
    | cons a rest =>
      simp only [ReviewerAssignmentService.find_replacement_reviewer, ho, hp,
        Except.ok.injEq] at h
      refine ⟨oldu, rfl, ?_⟩
      rw [hp]
      exact ⟨_, List.get_mem _ _ _, h⟩

theorem find_replacement_err {g : Nat → Nat} {db : DB} {old_id : String}
    {pr : PullRequest} {e : ErrorCode}
    (h : ReviewerAssignmentService.find_replacement_reviewer g db old_id pr = .error e) :
    e = .NO_CANDIDATE := by
  cases ho : UserCRUD.get_by_id db old_id with
  | none =>
    simp only [ReviewerAssignmentService.find_replacement_reviewer, ho,
      Except.error.injEq] at h
    exact h.symm
  | some oldu =>
    cases hp : ReviewerAssignmentService.replacementPool db oldu pr with
    | nil =>
      simp only [ReviewerAssignmentService.find_replacement_reviewer, ho, hp,
        Except.error.injEq] at h
      exact h.symm
    | cons a rest =>
      simp only [ReviewerAssignmentService.find_replacement_reviewer, ho, hp] at h
      exact Except.noConfusion h

/-! The store invariant behind the reviewer rules: assignment rows
reference existing PRs, PR ids are unique (primary key), and every PR
has at most 2 reviewers, never including its author. -/

/-- Invariant over reachable stores: the assignments table references
existing PRs, PR ids are pairwise distinct, and each PR has a reviewer
set of size at most 2 that does not contain its author. -/
def WF (db : DB) : Prop :=
  (∀ a ∈ db.assignments, ∃ p ∈ db.prs, p.pull_request_id = a.pull_request_id)
  ∧ (db.prs.map PullRequest.pull_request_id).Nodup
  ∧ ∀ p ∈ db.prs,
      p.author_id ∉ PRReviewerCRUD.get_reviewer_ids db p.pull_request_id
      ∧ (PRReviewerCRUD.get_reviewer_ids db p.pull_request_id).length ≤ 2

/-- All stored user ids are nonempty strings.  The Python exclusion
check treats an empty author id as absent, so this is the side condition
under which the author-exclusion rule is effective. -/
def NoEmptyIds (db : DB) : Prop := ∀ u ∈ db.users, u.user_id ≠ ""

theorem get_reviewer_ids_nil_of_no_pr (db : DB) (pid : String)
    (hFK : ∀ a ∈ db.assignments, ∃ p ∈ db.prs, p.pull_request_id = a.pull_request_id)
    (hno : ∀ p ∈ db.prs, p.pull_request_id ≠ pid) :
    PRReviewerCRUD.get_reviewer_ids db pid = [] := by
  unfold PRReviewerCRUD.get_reviewer_ids
  have : db.assignments.filter (fun a => a.pull_request_id == pid) = [] := by
    rw [List.filter_eq_nil_iff]
    intro a ha hc
    obtain ⟨p, hp, hpid⟩ := hFK a ha
    exact hno p hp (hpid.trans (beq_iff_eq.mp hc))
  rw [this, List.map_nil]

theorem pr_exists_false_elim {db : DB} {pid : String}
    (hex : PullRequestCRUD.pr_exists db pid = false) :
    ∀ p ∈ db.prs, p.pull_request_id ≠ pid := by
  intro p hp hc
  unfold PullRequestCRUD.pr_exists at hex
  have hnone : PullRequestCRUD.get_by_id db pid = none := by
    cases h : PullRequestCRUD.get_by_id db pid
    · rfl
    · rw [h] at hex; simp at hex
  have h' : db.prs.find? (fun q => q.pull_request_id == pid) = none := hnone
  rw [List.find?_eq_none] at h'
  exact h' p hp (beq_iff_eq.mpr hc)

theorem get_reviewer_ids_assign (db : DB) (now : Nat) (pid rid pid' : String) :
    PRReviewerCRUD.get_reviewer_ids (PRReviewerCRUD.assign_reviewer db now pid rid) pid'
      = PRReviewerCRUD.get_reviewer_ids db pid'
        ++ (if pid' = pid then [rid] else []) := by
  unfold PRReviewerCRUD.get_reviewer_ids PRReviewerCRUD.assign_reviewer
  rw [List.filter_append, List.map_append]
  congr 1
  by_cases h : pid' = pid
  · subst h; simp
  · simp only [List.filter_cons, List.filter_nil]
    have : ((⟨pid, rid, now⟩ : PRReviewer).pull_request_id == pid') = false := by
      simp only [PRReviewer.pull_request_id]
      exact beq_eq_false_iff_ne.mpr (fun hc => h hc.symm)
    simp [this, h]

/-- Preservation of the invariant by PR creation, under nonempty stored
user ids. -/
theorem WF_create_pr (g : Nat → Nat) (db : DB) (now : Nat)
    (pid name author_id : String) (hWF : WF db) (hids : NoEmptyIds db) :
    WF (PullRequestService.create_pr_with_reviewers g db now pid name author_id).1 := by
  by_cases hex : PullRequestCRUD.pr_exists db pid = true
  · unfold PullRequestService.create_pr_with_reviewers
    rw [if_pos hex]
    exact hWF
  · rw [Bool.not_eq_true] at hex
    cases ha : UserCRUD.get_by_id db author_id with
    | none =>
      unfold PullRequestService.create_pr_with_reviewers
      rw [if_neg (by rw [hex]; exact Bool.false_ne_true), ha]
      exact hWF
    | some author =>
      have hred :
          (PullRequestService.create_pr_with_reviewers g db now pid name author_id).1
            = ReviewerAssignmentService.assign_reviewers_to_pr
                (PullRequestCRUD.create_pr db now pid name author_id).1 now pid
                (ReviewerAssignmentService.select_reviewers g
                  (PullRequestCRUD.create_pr db now pid name author_id).1
                  author.team_name author_id 2) := by
        unfold PullRequestService.create_pr_with_reviewers
        rw [if_neg (by rw [hex]; exact Bool.false_ne_true), ha]
      rw [hred]
      set db1 := (PullRequestCRUD.create_pr db now pid name author_id).1 with hdb1
      set rids := ReviewerAssignmentService.select_reviewers g db1
        author.team_name author_id 2 with hrids
      set db2 := ReviewerAssignmentService.assign_reviewers_to_pr db1 now pid rids
        with hdb2
      have hprs2 : db2.prs = db.prs
          ++ [⟨pid, name, author_id, .OPEN, now, none⟩] := by
        rw [hdb2, assign_many_prs]
        rfl
      have hnewid : ∀ p ∈ db.prs, p.pull_request_id ≠ pid := pr_exists_false_elim hex
      have hids_db1 : ∀ q : String, PRReviewerCRUD.get_reviewer_ids db1 q
          = PRReviewerCRUD.get_reviewer_ids db q := fun _ => rfl
      have hids2 : ∀ q : String, PRReviewerCRUD.get_reviewer_ids db2 q
          = PRReviewerCRUD.get_reviewer_ids db q ++ (if q = pid then rids else []) := by
        intro q
        rw [hdb2, get_reviewer_ids_assign_many, hids_db1]
      have hanull : PRReviewerCRUD.get_reviewer_ids db pid = [] :=
        get_reviewer_ids_nil_of_no_pr db pid hWF.1 hnewid
      have hauthor_ne : author_id ≠ "" := by
        obtain ⟨hmem, heq⟩ := user_get_some ha
        exact heq ▸ hids author hmem
      have hrid_ne : ∀ r ∈ rids, r ≠ author_id := by
        intro r hr
        obtain ⟨u, hu, huid⟩ := select_reviewers_mem (hrids ▸ hr)
        exact huid ▸ mem_get_active_team_members_ne hu hauthor_ne
      have hrid_len : rids.length ≤ 2 := by
        rw [hrids, select_reviewers_length]
        omega
      have hasg2 : db2.assignments = db.assignments
          ++ rids.map (fun r => ⟨pid, r, now⟩) := by
        rw [hdb2, assign_many_assignments]
        rfl
      refine ⟨?_, ?_, ?_⟩
      · intro a ha2
        rw [hasg2, List.mem_append] at ha2
        rcases ha2 with ha2 | ha2
        · obtain ⟨p, hp, hpe⟩ := hWF.1 a ha2
          exact ⟨p, by rw [hprs2]; exact List.mem_append_left _ hp, hpe⟩
        · rw [List.mem_map] at ha2
          obtain ⟨r, _, hrow⟩ := ha2
          refine ⟨⟨pid, name, author_id, .OPEN, now, none⟩,
            by rw [hprs2]; exact List.mem_append_right _ (by simp), ?_⟩
          rw [← hrow]
      · rw [hprs2, List.map_append]
        rw [List.nodup_append]
        refine ⟨hWF.2.1, by simp, ?_⟩
        intro x hx hy
        simp only [List.map_cons, List.map_nil, List.mem_cons, List.not_mem_nil,
          or_false] at hy
        rw [List.mem_map] at hx
        obtain ⟨p, hp, hpe⟩ := hx
        exact hnewid p hp (hpe.trans hy)
      · intro p hp
        rw [hprs2, List.mem_append] at hp
        rcases hp with hp | hp
        · rw [hids2, if_neg (hnewid p hp), List.append_nil]
          exact hWF.2.2 p hp
        · simp only [List.mem_cons, List.not_mem_nil, or_false] at hp
          subst hp
          rw [hids2]
          simp only [if_pos rfl, hanull, List.nil_append]
          constructor
          · intro hc
            exact hrid_ne _ hc rfl
          · exact hrid_len

/-- Preservation of the invariant by the merge operation. -/
theorem WF_merge_pr (db : DB) (now : Nat) (pid : String) (hWF : WF db) :
    WF (PullRequestService.merge_pr db now pid).1 := by
  cases hg : PullRequestCRUD.get_by_id db pid with
  | none =>
    simp only [PullRequestService.merge_pr, PullRequestCRUD.merge_pr, hg]
    exact hWF
  | some pr =>
    by_cases hm : pr.status = PRStatus.MERGED
    · simp only [PullRequestService.merge_pr, PullRequestCRUD.merge_pr, hg, hm, if_true]
      exact hWF
    · simp only [PullRequestService.merge_pr, PullRequestCRUD.merge_pr, hg, hm, if_false]
      have hprid : pr.pull_request_id = pid := (pr_get_some hg).2
      have hmap : (replaceFirst (fun p => p.pull_request_id == pid)
            { pr with status := PRStatus.MERGED, merged_at := some now }
            db.prs).map PullRequest.pull_request_id
          = db.prs.map PullRequest.pull_request_id := by
        apply map_replaceFirst
        intro a hqa
        show a.pull_request_id = pr.pull_request_id
        rw [hprid]
        exact beq_iff_eq.mp hqa
      refine ⟨?_, ?_, ?_⟩
      · intro a ha
        obtain ⟨p, hp, hpe⟩ := hWF.1 a ha
        have : a.pull_request_id ∈ (replaceFirst (fun p => p.pull_request_id == pid)
            { pr with status := PRStatus.MERGED, merged_at := some now }
            db.prs).map PullRequest.pull_request_id := by
          rw [hmap, List.mem_map]
          exact ⟨p, hp, hpe⟩
        rw [List.mem_map] at this
        obtain ⟨p', hp', hpe'⟩ := this
        exact ⟨p', hp', hpe'⟩
      · rw [hmap]
        exact hWF.2.1
      · intro p hp
        rcases mem_replaceFirst _ _ _ _ hp with h | h
        · subst h
          exact hWF.2.2 pr (pr_get_some hg).1
        · exact hWF.2.2 p h

/-- Preservation of the invariant by the reassignment operation. -/
theorem WF_reassign_reviewer (g : Nat → Nat) (db : DB) (now : Nat)
    (pid old : String) (hWF : WF db) :
    WF (PullRequestService.reassign_reviewer g db now pid old).1 := by
  cases hg : PullRequestCRUD.get_by_id db pid with
  | none =>
    simp only [PullRequestService.reassign_reviewer, hg]
    exact hWF
  | some pr =>
    by_cases hm : pr.status = PRStatus.MERGED
    · simp only [PullRequestService.reassign_reviewer, hg, hm, if_true]
      exact hWF
    · by_cases hasg : PRReviewerCRUD.is_assigned db pid old = true
      · cases hf : ReviewerAssignmentService.find_replacement_reviewer g db old pr with
        | error e =>
          simp only [PullRequestService.reassign_reviewer, hg, hm, if_false, hasg,
            Bool.not_true, Bool.false_eq_true, hf]
          exact hWF
        | ok nid =>
          simp only [PullRequestService.reassign_reviewer, hg, hm, if_false, hasg,
            Bool.not_true, Bool.false_eq_true, hf,
            ReviewerAssignmentService.reassign_reviewer]
          have hprid : pr.pull_request_id = pid := (pr_get_some hg).2
          obtain ⟨oldu, hou, u, hu, huid⟩ := find_replacement_ok hf
          obtain ⟨humem, huact, huteam, hune, hunotin⟩ := mem_replacementPool hu
          have hnid_ne : nid ≠ pr.author_id := huid ▸ hune
          have hnid_notin : nid ∉ PRReviewerCRUD.get_reviewer_ids db pid := by
            rw [← hprid]
            exact huid ▸ hunotin
          have hold_mem : old ∈ PRReviewerCRUD.get_reviewer_ids db pid :=
            (is_assigned_iff_mem db pid old).mp hasg
          set dbr := (PRReviewerCRUD.remove_reviewer db pid old).1 with hdbr
          have hids : ∀ q : String,
              PRReviewerCRUD.get_reviewer_ids
                  (PRReviewerCRUD.assign_reviewer dbr now pid nid) q
                = (if q = pid
                    then removeFirst (fun s => s == old)
                      (PRReviewerCRUD.get_reviewer_ids db q)
                    else PRReviewerCRUD.get_reviewer_ids db q)
                  ++ (if q = pid then [nid] else []) := by
            intro q
            rw [get_reviewer_ids_assign, hdbr, get_reviewer_ids_remove]
          have hprs : (PRReviewerCRUD.assign_reviewer dbr now pid nid).prs = db.prs := rfl
          refine ⟨?_, ?_, ?_⟩
          · intro a ha
            have ha' : a ∈ removeFirst
                (fun b => b.pull_request_id == pid && b.reviewer_id == old)
                db.assignments ++ [⟨pid, nid, now⟩] := ha
            rw [List.mem_append] at ha'
            rcases ha' with ha' | ha'
            · have := removeFirst_subset _ _ ha'
              obtain ⟨p, hp, hpe⟩ := hWF.1 a this
              exact ⟨p, hp, hpe⟩
            · simp only [List.mem_cons, List.not_mem_nil, or_false] at ha'
              subst ha'
              exact ⟨pr, (pr_get_some hg).1, hprid⟩
          · exact hWF.2.1
          · intro p hp
            have hp' : p ∈ db.prs := hp
            by_cases hpd : p.pull_request_id = pid
            · have hppr : p = pr := by
                apply List.inj_on_of_nodup_map hWF.2.1 hp' (pr_get_some hg).1
                rw [hpd, hprid]
              subst hppr
              rw [hids, if_pos hpd, if_pos hpd]
              constructor
              · rw [List.mem_append]
                rintro (hc | hc)
                · have := removeFirst_subset _ _ hc
                  rw [hpd] at this
                  exact (hWF.2.2 p hp').1 (hprid ▸ this)
                · simp only [List.mem_cons, List.not_mem_nil, or_false] at hc
                  exact hnid_ne hc.symm
              · rw [List.length_append]
                have hlen := length_removeFirst_add_one (fun s => s == old)
                  (PRReviewerCRUD.get_reviewer_ids db p.pull_request_id)
                  ⟨old, by rw [hpd]; exact hold_mem, beq_self_eq_true old⟩
                have hle := (hWF.2.2 p hp').2
                simp only [List.length_cons, List.length_nil]
                omega
            · rw [hids, if_neg hpd, if_neg hpd, List.append_nil]
              exact hWF.2.2 p hp'
      · have hasg' : PRReviewerCRUD.is_assigned db pid old = false :=
          Bool.not_eq_true _ ▸ hasg
        simp only [PullRequestService.reassign_reviewer, hg, hm, if_false, hasg',
          Bool.not_false, if_true]
        exact hWF

/-! Lemmas about the user upsert and team creation. -/

theorem find?_append_some (p : α → Bool) (l m : List α) (a : α)
    (h : l.find? p = some a) : (l ++ m).find? p = some a := by
  induction l with
  | nil => simp at h
  | cons b t ih =>
    by_cases hb : p b = true
    · rw [List.find?_cons_of_pos _ hb] at h
      rw [List.cons_append, List.find?_cons_of_pos _ hb]
      exact h
    · rw [List.find?_cons_of_neg _ hb] at h
      rw [List.cons_append, List.find?_cons_of_neg _ hb]
      exact ih h

theorem upsert_get_self (db : DB) (uid un tn : String) (act : Bool) :
    UserCRUD.get_by_id (UserCRUD.create_or_update db uid un tn act) uid
      = some ⟨uid, un, tn, act⟩ := by
  cases hg : UserCRUD.get_by_id db uid with
  | some u =>
    simp only [UserCRUD.create_or_update, hg]
    show (replaceFirst (fun v : User => v.user_id == uid)
        (⟨uid, un, tn, act⟩ : User) db.users).find?
        (fun v : User => v.user_id == uid) = some (⟨uid, un, tn, act⟩ : User)
    apply find?_replaceFirst_self
    · exact beq_self_eq_true uid
    · have h' : db.users.find? (fun v => v.user_id == uid) = some u := hg
      have hb := List.find?_some h'
      exact ⟨u, List.mem_of_find?_eq_some h', hb⟩
  | none =>
    simp only [UserCRUD.create_or_update, hg]
    show (db.users ++ [(⟨uid, un, tn, act⟩ : User)]).find? (fun v : User => v.user_id == uid)
        = some (⟨uid, un, tn, act⟩ : User)
    rw [find?_append_none _ _ _ hg]
    exact List.find?_cons_of_pos _ (beq_self_eq_true uid)

theorem upsert_get_other (db : DB) (uid un tn : String) (act : Bool) (uid' : String)
    (hne : uid' ≠ uid) :
    UserCRUD.get_by_id (UserCRUD.create_or_update db uid un tn act) uid'
      = UserCRUD.get_by_id db uid' := by
  cases hg : UserCRUD.get_by_id db uid with
  | some u =>
    simp only [UserCRUD.create_or_update, hg]
    show (replaceFirst (fun v : User => v.user_id == uid)
        (⟨uid, un, tn, act⟩ : User) db.users).find?
        (fun v : User => v.user_id == uid') = _
    apply find?_replaceFirst_other
    · intro a hpa
      have : a.user_id = uid := beq_iff_eq.mp hpa
      rw [this]
      exact beq_eq_false_iff_ne.mpr (fun hc => hne hc.symm)
    · exact beq_eq_false_iff_ne.mpr (fun hc => hne hc.symm)
  | none =>
    simp only [UserCRUD.create_or_update, hg]
    show (db.users ++ [(⟨uid, un, tn, act⟩ : User)]).find?
        (fun v : User => v.user_id == uid') = _
    cases hg' : db.users.find? (fun v => v.user_id == uid') with
    | some v =>
      have happ := find?_append_some (fun v : User => v.user_id == uid') db.users
        [(⟨uid, un, tn, act⟩ : User)] v hg'
      rw [happ]
      exact hg'.symm
    | none =>
      rw [find?_append_none _ _ _ hg']
      rw [List.find?_cons_of_neg _ (by
        show ¬ ((⟨uid, un, tn, act⟩ : User).user_id == uid') = true
        exact fun hc => hne (beq_iff_eq.mp hc).symm)]
      rw [List.find?_nil]
      exact hg'.symm

theorem upsert_teams (db : DB) (uid un tn : String) (act : Bool) :
    (UserCRUD.create_or_update db uid un tn act).teams = db.teams := by
  simp only [UserCRUD.create_or_update]
  cases UserCRUD.get_by_id db uid <;> rfl

theorem foldl_upsert_teams (tname : String) :
    ∀ (members : List TeamMember) (db : DB),
      (members.foldl (fun d mm =>
          UserCRUD.create_or_update d mm.user_id mm.username tname mm.is_active)
        db).teams = db.teams := by
  intro members
  induction members with
  | nil => intro db; rfl
  | cons m rest ih =>
    intro db
    rw [List.foldl_cons, ih, upsert_teams]

theorem foldl_upsert_other (tname uid : String) :
    ∀ (members : List TeamMember) (db : DB),
      uid ∉ members.map TeamMember.user_id →
      UserCRUD.get_by_id
          (members.foldl (fun d mm =>
            UserCRUD.create_or_update d mm.user_id mm.username tname mm.is_active) db)
          uid
        = UserCRUD.get_by_id db uid := by
  intro members
  induction members with
  | nil => intro db _; rfl
  | cons m rest ih =>
    intro db hnot
    rw [List.map_cons, List.mem_cons] at hnot
    push_neg at hnot
    rw [List.foldl_cons, ih _ hnot.2, upsert_get_other _ _ _ _ _ _ hnot.1]

theorem foldl_upsert_lookup (tname : String) :
    ∀ (members : List TeamMember) (db : DB),
      (members.map TeamMember.user_id).Nodup →
      ∀ m ∈ members,
        UserCRUD.get_by_id
            (members.foldl (fun d mm =>
              UserCRUD.create_or_update d mm.user_id mm.username tname mm.is_active) db)
            m.user_id
          = some ⟨m.user_id, m.username, tname, m.is_active⟩ := by
  intro members
  induction members with
  | nil => intro db _ m hm; simp at hm
  | cons m0 rest ih =>
    intro db hnd m hm
    rw [List.map_cons, List.nodup_cons] at hnd
    rw [List.foldl_cons]
    rcases List.mem_cons.mp hm with hm | hm
    · subst hm
      rw [foldl_upsert_other _ _ _ _ hnd.1]
      exact upsert_get_self _ _ _ _ _
    · exact ih _ hnd.2 m hm

/-! Concrete stores used in the closed theorems below. -/

/-- Empty store. -/
def dbEmpty : DB := ⟨[], [], [], []⟩

/-- Store reached from the empty store by creating team t whose single
member carries the empty string as user id; the API layer performs no
validation of ids, so this request is accepted. -/
def dbEmptyIdTeam : DB :=
  (TeamService.create_team_with_members dbEmpty "t" [⟨"", "x", true⟩]).1

/-- Store reached from dbEmptyIdTeam by creating PR p authored by the
empty-id user. -/
def dbEmptyIdAfterCreate : DB :=
  (PullRequestService.create_pr_with_reviewers (fun _ => 0) dbEmptyIdTeam 0 "p" "n" "").1

/-- Store with one team t of three active users a, u2 and u3, one open
PR p authored by a, and u2 assigned as its reviewer. -/
def dbThree : DB :=
  ⟨["t"],
   [⟨"a", "a", "t", true⟩, ⟨"u2", "u2", "t", true⟩, ⟨"u3", "u3", "t", true⟩],
   [⟨"p", "p", "a", .OPEN, 0, none⟩],
   [⟨"p", "u2", 0⟩]⟩

/-- The PR record stored in dbThree and dbTwoNoAssign. -/
def prOpen : PullRequest := ⟨"p", "p", "a", .OPEN, 0, none⟩

/-- Store with team t of active users a and u2, an open PR p authored
by a, and no reviewer assigned at all. -/
def dbTwoNoAssign : DB :=
  ⟨["t"], [⟨"a", "a", "t", true⟩, ⟨"u2", "u2", "t", true⟩],
   [⟨"p", "p", "a", .OPEN, 0, none⟩], []⟩

/-- Store whose single user carries the empty string as its id. -/
def dbEmptyAuthor : DB := ⟨["t"], [⟨"", "x", "t", true⟩], [], []⟩

/-- Store with one merged PR p authored by a and no assignment rows. -/
def dbMerged : DB :=
  ⟨["t"], [⟨"a", "a", "t", true⟩], [⟨"p", "p", "a", .MERGED, 0, some 1⟩], []⟩

/-! The claims. -/

/-- C4: find_replacement_reviewer fails exactly when the old reviewer id
does not resolve to a known user or the filtered pool of active members
of the team of the old reviewer, minus the author and the current
reviewers, is empty; its only error is NO_CANDIDATE, and in every other
case it returns a reviewer id. -/
theorem C4_no_candidate_characterisation (g : Nat → Nat) (db : DB)
    (old_id : String) (pr : PullRequest) :
    (ReviewerAssignmentService.find_replacement_reviewer g db old_id pr
        = .error .NO_CANDIDATE
      ∨ ∃ nid, ReviewerAssignmentService.find_replacement_reviewer g db old_id pr
          = .ok nid)
    ∧ (ReviewerAssignmentService.find_replacement_reviewer g db old_id pr
          = .error .NO_CANDIDATE
        ↔ UserCRUD.get_by_id db old_id = none
          ∨ ∃ oldu, UserCRUD.get_by_id db old_id = some oldu
              ∧ ReviewerAssignmentService.replacementPool db oldu pr = []) := by
  cases ho : UserCRUD.get_by_id db old_id with
  | none =>
    have hfind : ReviewerAssignmentService.find_replacement_reviewer g db old_id pr
        = .error .NO_CANDIDATE := by
      simp only [ReviewerAssignmentService.find_replacement_reviewer, ho]
    exact ⟨Or.inl hfind, ⟨fun _ => Or.inl rfl, fun _ => hfind⟩⟩
  | some oldu =>
    cases hp : ReviewerAssignmentService.replacementPool db oldu pr with
    | nil =>
      have hfind : ReviewerAssignmentService.find_replacement_reviewer g db old_id pr
          = .error .NO_CANDIDATE := by
        simp only [ReviewerAssignmentService.find_replacement_reviewer, ho, hp]
      exact ⟨Or.inl hfind, ⟨fun _ => Or.inr ⟨oldu, rfl, hp⟩, fun _ => hfind⟩⟩
    | cons a rest =>
      have hok : ReviewerAssignmentService.find_replacement_reviewer g db old_id pr
          = .ok (((a :: rest).get
              ⟨g 0 % (a :: rest).length, Nat.mod_lt _ (Nat.succ_pos _)⟩).user_id) := by
        simp only [ReviewerAssignmentService.find_replacement_reviewer, ho, hp]
      set nid := ((a :: rest).get
        ⟨g 0 % (a :: rest).length, Nat.mod_lt _ (Nat.succ_pos _)⟩).user_id
      refine ⟨Or.inr ⟨nid, hok⟩, ?_, ?_⟩
      · intro hc
        rw [hok] at hc
        exact Except.noConfusion hc
      · rintro (hc | ⟨oldu', ho', hp'⟩)
        · exact Option.noConfusion hc
        · have : oldu = oldu' := Option.some.inj ho'
          rw [← this] at hp'
          rw [hp'] at hp
          exact List.noConfusion hp

/-- C6: reassign_reviewer checks its failure conditions in the fixed
order NOT_FOUND, PR_MERGED, NOT_ASSIGNED, then the NO_CANDIDATE error
propagated from the replacement search; in particular a merged PR
answers PR_MERGED regardless of whether the old reviewer is assigned. -/
theorem C6_reassign_check_order (g : Nat → Nat) (db : DB) (now : Nat)
    (pid old : String) :
    (PullRequestCRUD.get_by_id db pid = none →
      PullRequestService.reassign_reviewer g db now pid old = (db, .error .NOT_FOUND))
    ∧ (∀ pr, PullRequestCRUD.get_by_id db pid = some pr →
        pr.status = PRStatus.MERGED →
        PullRequestService.reassign_reviewer g db now pid old = (db, .error .PR_MERGED))
    ∧ (∀ pr, PullRequestCRUD.get_by_id db pid = some pr →
        pr.status ≠ PRStatus.MERGED →
        PRReviewerCRUD.is_assigned db pid old = false →
        PullRequestService.reassign_reviewer g db now pid old = (db, .error .NOT_ASSIGNED))
    ∧ (∀ pr e, PullRequestCRUD.get_by_id db pid = some pr →
        pr.status ≠ PRStatus.MERGED →
        PRReviewerCRUD.is_assigned db pid old = true →
        ReviewerAssignmentService.find_replacement_reviewer g db old pr = .error e →
        PullRequestService.reassign_reviewer g db now pid old = (db, .error e)) := by
  refine ⟨?_, ?_, ?_, ?_⟩
  · intro h
    simp only [PullRequestService.reassign_reviewer, h]
  · intro pr hpr hm
    simp only [PullRequestService.reassign_reviewer, hpr, hm, if_true]
  · intro pr hpr hm hasg
    simp only [PullRequestService.reassign_reviewer, hpr, hm, hasg, Bool.not_false,
      if_true, if_false]
  · intro pr e hpr hm hasg hf
    simp only [PullRequestService.reassign_reviewer, hpr, hm, hasg, Bool.not_true,
      Bool.false_eq_true, if_false, hf]

/-- C10: whenever reassign_reviewer answers an error, the returned store
is exactly the input store: every check and the read-only replacement
search happen before the delete-and-insert swap. -/
theorem C10_reassign_error_preserves_state (g : Nat → Nat) (db : DB) (now : Nat)
    (pid old : String) (e : ErrorCode)
    (h : (PullRequestService.reassign_reviewer g db now pid old).2 = .error e) :
    (PullRequestService.reassign_reviewer g db now pid old).1 = db := by
  cases hg : PullRequestCRUD.get_by_id db pid with
  | none => simp only [PullRequestService.reassign_reviewer, hg]
  | some pr =>
    by_cases hm : pr.status = PRStatus.MERGED
    · simp only [PullRequestService.reassign_reviewer, hg, hm, if_true]
    · by_cases hasg : PRReviewerCRUD.is_assigned db pid old = true
      · cases hf : ReviewerAssignmentService.find_replacement_reviewer g db old pr with
        | error e' =>
          simp only [PullRequestService.reassign_reviewer, hg, hm, hasg, Bool.not_true,
            Bool.false_eq_true, if_false, hf]
        | ok nid =>
          exfalso
          simp only [PullRequestService.reassign_reviewer, hg, hm, hasg, Bool.not_true,
            Bool.false_eq_true, if_false, hf] at h
          exact Except.noConfusion h
      · have hasg' : PRReviewerCRUD.is_assigned db pid old = false :=
          Bool.not_eq_true _ ▸ hasg
        simp only [PullRequestService.reassign_reviewer, hg, hm, hasg', Bool.not_false,
          if_true, if_false]

/-- C10 witness: reassigning on a store without the requested PR fails
and leaves the store untouched. -/
theorem C10_witness :
    (PullRequestService.reassign_reviewer (fun _ => 0) dbMerged 3 "nope" "x").1
      = dbMerged :=
  C10_reassign_error_preserves_state (fun _ => 0) dbMerged 3 "nope" "x"
    .NOT_FOUND (by rfl)

/-- C6 witness: on a merged PR whose requested old reviewer is not even
assigned, reassignment answers PR_MERGED, not NOT_ASSIGNED. -/
theorem C6_witness :
    PullRequestService.reassign_reviewer (fun _ => 0) dbMerged 3 "p" "u9"
      = (dbMerged, .error .PR_MERGED) :=
  (C6_reassign_check_order (fun _ => 0) dbMerged 3 "p" "u9").2.1
    ⟨"p", "p", "a", .MERGED, 0, some 1⟩ (by rfl) rfl

/-- C5: merging is idempotent: when the PR exists, the first merge
answers an ok payload with status MERGED, the second merge answers the
very same payload (hence the identical merge timestamp), and the second
call leaves the store exactly as the first call left it. -/
theorem C5_merge_idempotent (db : DB) (pid : String) (t₁ t₂ : Nat)
    (pr : PullRequest) (h : PullRequestCRUD.get_by_id db pid = some pr) :
    ∃ s : PullRequestSchema,
      (PullRequestService.merge_pr db t₁ pid).2 = .ok s
      ∧ (PullRequestService.merge_pr
          (PullRequestService.merge_pr db t₁ pid).1 t₂ pid).2 = .ok s
      ∧ s.status = PRStatus.MERGED
      ∧ (PullRequestService.merge_pr
          (PullRequestService.merge_pr db t₁ pid).1 t₂ pid).1
        = (PullRequestService.merge_pr db t₁ pid).1 := by
  by_cases hm : pr.status = PRStatus.MERGED
  · have hone : PullRequestService.merge_pr db t₁ pid
        = (db, .ok (PullRequestService.build_pr_schema db pr)) := by
      simp only [PullRequestService.merge_pr, PullRequestCRUD.merge_pr, h, hm, if_true]
    have htwo : PullRequestService.merge_pr db t₂ pid
        = (db, .ok (PullRequestService.build_pr_schema db pr)) := by
      simp only [PullRequestService.merge_pr, PullRequestCRUD.merge_pr, h, hm, if_true]
    refine ⟨PullRequestService.build_pr_schema db pr, ?_, ?_, hm, ?_⟩
    · rw [hone]
    · rw [hone, htwo]
    · rw [hone, htwo]
  · set pr' : PullRequest := { pr with status := PRStatus.MERGED, merged_at := some t₁ }
      with hpr'
    have hone : PullRequestService.merge_pr db t₁ pid
        = ({ db with prs := replaceFirst (fun p => p.pull_request_id == pid) pr' db.prs },
           .ok (PullRequestService.build_pr_schema
             { db with prs := replaceFirst (fun p => p.pull_request_id == pid) pr' db.prs }
             pr')) := by
      simp only [PullRequestService.merge_pr, PullRequestCRUD.merge_pr, h, hm, if_false,
        hpr']
    have hget1 : PullRequestCRUD.get_by_id
        { db with prs := replaceFirst (fun p => p.pull_request_id == pid) pr' db.prs } pid
        = some pr' := by
      show (replaceFirst (fun p => p.pull_request_id == pid) pr' db.prs).find?
        (fun p => p.pull_request_id == pid) = some pr'
      apply find?_replaceFirst_self
      · show (pr'.pull_request_id == pid) = true
        exact beq_iff_eq.mpr (pr_get_some h).2
      · have h' : db.prs.find? (fun p => p.pull_request_id == pid) = some pr := h
        have hb := List.find?_some h'
        exact ⟨pr, List.mem_of_find?_eq_some h', hb⟩
    have htwo : PullRequestService.merge_pr
        { db with prs := replaceFirst (fun p => p.pull_request_id == pid) pr' db.prs }
        t₂ pid
        = ({ db with prs := replaceFirst (fun p => p.pull_request_id == pid) pr' db.prs },
           .ok (PullRequestService.build_pr_schema
             { db with prs := replaceFirst (fun p => p.pull_request_id == pid) pr' db.prs }
             pr')) := by
      simp only [PullRequestService.merge_pr, PullRequestCRUD.merge_pr, hget1]
      rfl
    refine ⟨PullRequestService.build_pr_schema
        { db with prs := replaceFirst (fun p => p.pull_request_id == pid) pr' db.prs }
        pr', ?_, ?_, rfl, ?_⟩
    · rw [hone]
    · rw [hone, htwo]
    · rw [hone, htwo]

/-- C5 witness: merging the open PR of dbThree twice yields the same
MERGED payload both times and does not change the store again. -/
theorem C5_witness :
    ∃ s : PullRequestSchema,
      (PullRequestService.merge_pr dbThree 5 "p").2 = .ok s
      ∧ (PullRequestService.merge_pr
          (PullRequestService.merge_pr dbThree 5 "p").1 9 "p").2 = .ok s
      ∧ s.status = PRStatus.MERGED
      ∧ (PullRequestService.merge_pr
          (PullRequestService.merge_pr dbThree 5 "p").1 9 "p").1
        = (PullRequestService.merge_pr dbThree 5 "p").1 :=
  C5_merge_idempotent dbThree "p" 5 9 prOpen (by rfl)

theorem pr_exists_false_none {db : DB} {pid : String}
    (hex : PullRequestCRUD.pr_exists db pid = false) :
    PullRequestCRUD.get_by_id db pid = none := by
  unfold PullRequestCRUD.pr_exists at hex
  cases h : PullRequestCRUD.get_by_id db pid
  · rfl
  · rw [h] at hex; simp at hex

/-- C7: PR creation answers PR_EXISTS for a taken id before even looking
at the author, NOT_FOUND for a fresh id with an unknown author, and
otherwise stores an OPEN PR under the requested id and answers a payload
whose reviewer list is read back from the stored assignment rows. -/
theorem C7_create_pr (g : Nat → Nat) (db : DB) (now : Nat)
    (pid name author_id : String) :
    (PullRequestCRUD.pr_exists db pid = true →
      PullRequestService.create_pr_with_reviewers g db now pid name author_id
        = (db, .error .PR_EXISTS))
    ∧ (PullRequestCRUD.pr_exists db pid = false →
        UserCRUD.get_by_id db author_id = none →
        PullRequestService.create_pr_with_reviewers g db now pid name author_id
          = (db, .error .NOT_FOUND))
    ∧ (∀ author, PullRequestCRUD.pr_exists db pid = false →
        UserCRUD.get_by_id db author_id = some author →
        ∃ s, (PullRequestService.create_pr_with_reviewers g db now pid name author_id).2
            = .ok s
          ∧ s.status = PRStatus.OPEN
          ∧ s.pull_request_id = pid
          ∧ s.author_id = author_id
          ∧ s.assigned_reviewers = PRReviewerCRUD.get_reviewer_ids
              (PullRequestService.create_pr_with_reviewers g db now pid name author_id).1
              pid
          ∧ PullRequestCRUD.get_by_id
              (PullRequestService.create_pr_with_reviewers g db now pid name author_id).1
              pid
            = some ⟨pid, name, author_id, .OPEN, now, none⟩) := by
  refine ⟨?_, ?_, ?_⟩
  · intro hex
    simp only [PullRequestService.create_pr_with_reviewers, hex, if_true]
  · intro hex ha
    simp only [PullRequestService.create_pr_with_reviewers, hex, Bool.false_eq_true,
      if_false, ha]
  · intro author hex ha
    have hres : PullRequestService.create_pr_with_reviewers g db now pid name author_id
        = (ReviewerAssignmentService.assign_reviewers_to_pr
            (PullRequestCRUD.create_pr db now pid name author_id).1 now pid
            (ReviewerAssignmentService.select_reviewers g
              (PullRequestCRUD.create_pr db now pid name author_id).1
              author.team_name author_id 2),
           .ok (PullRequestService.build_pr_schema
            (ReviewerAssignmentService.assign_reviewers_to_pr
              (PullRequestCRUD.create_pr db now pid name author_id).1 now pid
              (ReviewerAssignmentService.select_reviewers g
                (PullRequestCRUD.create_pr db now pid name author_id).1
                author.team_name author_id 2))
            (⟨pid, name, author_id, .OPEN, now, none⟩ : PullRequest))) := by
      simp only [PullRequestService.create_pr_with_reviewers, hex, Bool.false_eq_true,
        if_false, ha]
      rfl
    set db2 := ReviewerAssignmentService.assign_reviewers_to_pr
      (PullRequestCRUD.create_pr db now pid name author_id).1 now pid
      (ReviewerAssignmentService.select_reviewers g
        (PullRequestCRUD.create_pr db now pid name author_id).1
        author.team_name author_id 2) with hdb2
    have hnone : PullRequestCRUD.get_by_id db pid = none := pr_exists_false_none hex
    have hget : PullRequestCRUD.get_by_id db2 pid
        = some (⟨pid, name, author_id, .OPEN, now, none⟩ : PullRequest) := by
      show db2.prs.find? (fun p => p.pull_request_id == pid)
        = some (⟨pid, name, author_id, .OPEN, now, none⟩ : PullRequest)
      have hprs : db2.prs
          = db.prs ++ [(⟨pid, name, author_id, .OPEN, now, none⟩ : PullRequest)] := by
        rw [hdb2, assign_many_prs]
        rfl
      rw [hprs, find?_append_none _ _ _ hnone]
      exact List.find?_cons_of_pos _ (beq_self_eq_true pid)
    refine ⟨PullRequestService.build_pr_schema db2
        (⟨pid, name, author_id, .OPEN, now, none⟩ : PullRequest),
      by rw [hres], rfl, rfl, rfl, by rw [hres]; rfl, by rw [hres]; exact hget⟩

/-- C7 witness: a taken PR id together with an unknown author answers
PR_EXISTS, showing the id check precedes the author check. -/
theorem C7_witness :
    PullRequestService.create_pr_with_reviewers (fun _ => 0) dbThree 7 "p" "x" "ghost"
      = (dbThree, .error .PR_EXISTS) :=
  (C7_create_pr (fun _ => 0) dbThree 7 "p" "x" "ghost").1 (by rfl)

/-- C8: get_user_reviews answers exactly the stored PRs whose current
assignment rows contain the requested user id, echoes the id without
any existence check, and an id that names no stored user (every
assignment row references a stored user) yields the empty list. -/
theorem C8_get_user_reviews (db : DB) (uid : String) :
    ((PullRequestService.get_user_reviews db uid).user_id = uid)
    ∧ ((PullRequestService.get_user_reviews db uid).pull_requests
        = (PullRequestCRUD.get_prs_by_reviewer db uid).map
            (fun p => ⟨p.pull_request_id, p.pull_request_name, p.author_id, p.status⟩))
    ∧ (∀ p, p ∈ PullRequestCRUD.get_prs_by_reviewer db uid
        ↔ p ∈ db.prs ∧ PRReviewerCRUD.is_assigned db p.pull_request_id uid = true)
    ∧ ((∀ a ∈ db.assignments, ∃ u ∈ db.users, u.user_id = a.reviewer_id) →
        UserCRUD.get_by_id db uid = none →
        PullRequestService.get_user_reviews db uid = ⟨uid, []⟩) := by
  refine ⟨rfl, rfl, ?_, ?_⟩
  · intro p
    unfold PullRequestCRUD.get_prs_by_reviewer
    rw [List.mem_filter]
    exact Iff.rfl
  · intro hFK hnone
    have hempty : PullRequestCRUD.get_prs_by_reviewer db uid = [] := by
      unfold PullRequestCRUD.get_prs_by_reviewer
      rw [List.filter_eq_nil_iff]
      intro p hp hc
      rw [List.any_eq_true] at hc
      obtain ⟨a, ha, hpa⟩ := hc
      rw [Bool.and_eq_true] at hpa
      obtain ⟨u, hu, huid⟩ := hFK a ha
      have h' : db.users.find? (fun v => v.user_id == uid) = none := hnone
      rw [List.find?_eq_none] at h'
      exact h' u hu (beq_iff_eq.mpr (huid.trans (beq_iff_eq.mp hpa.2)))
    unfold PullRequestService.get_user_reviews
    rw [hempty]
    rfl

/-- C8 witness: a user id naming no stored user yields the empty review
list rather than an error. -/
theorem C8_witness :
    PullRequestService.get_user_reviews dbThree "ghost" = ⟨"ghost", []⟩ :=
  (C8_get_user_reviews dbThree "ghost").2.2.2 (by decide) (by rfl)

/-- C9: creating a team fails with TEAM_EXISTS for a taken name and
leaves the store unchanged; otherwise it records the team and upserts
every listed member keyed by user id, so each listed member ends up
stored with the new team name and the listed username and active flag,
even if it previously belonged to another team. -/
theorem C9_create_team (db : DB) (tname : String) (members : List TeamMember)
    (hnd : (members.map TeamMember.user_id).Nodup) :
    (TeamCRUD.team_exists db tname = true →
      TeamService.create_team_with_members db tname members = (db, .error .TEAM_EXISTS))
    ∧ (TeamCRUD.team_exists db tname = false →
        (TeamService.create_team_with_members db tname members).2 = .ok ()
        ∧ tname ∈ (TeamService.create_team_with_members db tname members).1.teams
        ∧ ∀ m ∈ members,
            UserCRUD.get_by_id
                (TeamService.create_team_with_members db tname members).1 m.user_id
              = some ⟨m.user_id, m.username, tname, m.is_active⟩) := by
  constructor
  · intro hex
    simp only [TeamService.create_team_with_members, hex, if_true]
  · intro hex
    have hres : TeamService.create_team_with_members db tname members
        = (members.foldl (fun d mm =>
            UserCRUD.create_or_update d mm.user_id mm.username tname mm.is_active)
            (TeamCRUD.create_team db tname), .ok ()) := by
      simp only [TeamService.create_team_with_members, hex, Bool.false_eq_true, if_false]
    refine ⟨by rw [hres], ?_, ?_⟩
    · rw [hres]
      show tname ∈ (members.foldl (fun d mm =>
        UserCRUD.create_or_update d mm.user_id mm.username tname mm.is_active)
        (TeamCRUD.create_team db tname)).teams
      rw [foldl_upsert_teams]
      show tname ∈ db.teams ++ [tname]
      simp
    · intro m hm
      rw [hres]
      exact foldl_upsert_lookup tname members _ hnd m hm

/-- C9 witness: creating team backend whose member list names u2, who is
stored in team t, moves u2 into backend and overwrites its username and
active flag with the listed values. -/
theorem C9_witness :
    (TeamService.create_team_with_members dbThree "backend" [⟨"u2", "new", false⟩]).2
      = .ok ()
    ∧ "backend" ∈ (TeamService.create_team_with_members dbThree "backend"
        [⟨"u2", "new", false⟩]).1.teams
    ∧ UserCRUD.get_by_id (TeamService.create_team_with_members dbThree "backend"
        [⟨"u2", "new", false⟩]).1 "u2"
      = some ⟨"u2", "new", "backend", false⟩ := by
  have h := (C9_create_team dbThree "backend" [⟨"u2", "new", false⟩] (by decide)).2
    (by rfl)
  exact ⟨h.1, h.2.1, h.2.2 ⟨"u2", "new", false⟩ (by decide)⟩

/-- C2 (amended): for a nonempty author id and a user table with
pairwise distinct ids, select_reviewers returns a duplicate-free list of
ids of active stored members of the team, none equal to the author id,
whose length is the minimum of the candidate count and max_count; an
empty candidate set yields the empty list rather than a failure. -/
theorem C2_select_reviewers (g : Nat → Nat) (db : DB) (team author_id : String)
    (mc : Nat) (hnd : (db.users.map User.user_id).Nodup) (ha : author_id ≠ "") :
    (ReviewerAssignmentService.select_reviewers g db team author_id mc).Nodup
    ∧ (∀ uid ∈ ReviewerAssignmentService.select_reviewers g db team author_id mc,
        ∃ u ∈ db.users, u.user_id = uid ∧ u.is_active = true ∧ u.team_name = team
          ∧ uid ≠ author_id)
    ∧ (ReviewerAssignmentService.select_reviewers g db team author_id mc).length
        = min (UserCRUD.get_active_team_members db team (some author_id)).length mc
    ∧ (UserCRUD.get_active_team_members db team (some author_id) = [] →
        ReviewerAssignmentService.select_reviewers g db team author_id mc = []) := by
  refine ⟨select_reviewers_nodup hnd, ?_,
    select_reviewers_length g db team author_id mc, ?_⟩
  · intro uid hid
    obtain ⟨u, hu, huid⟩ := select_reviewers_mem hid
    obtain ⟨h1, h2, h3⟩ := mem_get_active_team_members hu
    exact ⟨u, h1, huid, h3, h2, huid ▸ mem_get_active_team_members_ne hu ha⟩
  · intro hempt
    have hlen := select_reviewers_length g db team author_id mc
    rw [hempt] at hlen
    simp only [List.length_nil, Nat.zero_min] at hlen
    exact List.length_eq_zero.mp hlen

/-- C2 witness: in dbThree the selection for author a over team t is a
duplicate-free pair of active members other than a. -/
theorem C2_witness :
    (ReviewerAssignmentService.select_reviewers (fun _ => 0) dbThree "t" "a" 2).Nodup
    ∧ (∀ uid ∈ ReviewerAssignmentService.select_reviewers (fun _ => 0) dbThree "t" "a" 2,
        ∃ u ∈ dbThree.users, u.user_id = uid ∧ u.is_active = true ∧ u.team_name = "t"
          ∧ uid ≠ "a")
    ∧ (ReviewerAssignmentService.select_reviewers (fun _ => 0) dbThree "t" "a" 2).length
        = min (UserCRUD.get_active_team_members dbThree "t" (some "a")).length 2
    ∧ (UserCRUD.get_active_team_members dbThree "t" (some "a") = [] →
        ReviewerAssignmentService.select_reviewers (fun _ => 0) dbThree "t" "a" 2 = []) :=
  C2_select_reviewers (fun _ => 0) dbThree "t" "a" 2 (by decide) (by decide)

/-- C2 counterexample: with the empty string as author id, the Python
truthiness test skips the author exclusion, and the selection for the
store whose only user carries the empty id returns that very id, i.e. a
reviewer equal to the author. -/
theorem C2_counterexample :
    "" ∈ ReviewerAssignmentService.select_reviewers (fun _ => 0) dbEmptyAuthor "t" "" 2 := by
  decide

/-- C3 (amended): whenever find_replacement_reviewer answers ok and the
old reviewer id is currently assigned to the PR, the returned id names
an active stored user of the team of the old reviewer and differs from
the author, from every currently assigned reviewer, and from the old
reviewer itself. -/
theorem C3_replacement_properties (g : Nat → Nat) (db : DB) (old_id : String)
    (pr : PullRequest) (new_id : String)
    (hok : ReviewerAssignmentService.find_replacement_reviewer g db old_id pr
      = .ok new_id)
    (hassigned : old_id ∈ PRReviewerCRUD.get_reviewer_ids db pr.pull_request_id) :
    ∃ oldu, UserCRUD.get_by_id db old_id = some oldu
      ∧ (∃ u ∈ db.users, u.user_id = new_id ∧ u.is_active = true
          ∧ u.team_name = oldu.team_name)
      ∧ new_id ≠ pr.author_id
      ∧ new_id ∉ PRReviewerCRUD.get_reviewer_ids db pr.pull_request_id
      ∧ new_id ≠ old_id := by
  obtain ⟨oldu, ho, u, hu, huid⟩ := find_replacement_ok hok
  obtain ⟨h1, h2, h3, h4, h5⟩ := mem_replacementPool hu
  refine ⟨oldu, ho, ⟨u, h1, huid, h2, h3⟩, huid ▸ h4, huid ▸ h5, ?_⟩
  intro hc
  exact (huid ▸ h5) (hc ▸ hassigned)

/-- C3 witness: replacing the assigned reviewer u2 of the PR in dbThree
yields an id with all the required properties. -/
theorem C3_witness :
    ∃ oldu, UserCRUD.get_by_id dbThree "u2" = some oldu
      ∧ (∃ u ∈ dbThree.users, u.user_id = "u3" ∧ u.is_active = true
          ∧ u.team_name = oldu.team_name)
      ∧ "u3" ≠ prOpen.author_id
      ∧ "u3" ∉ PRReviewerCRUD.get_reviewer_ids dbThree prOpen.pull_request_id
      ∧ "u3" ≠ "u2" :=
  C3_replacement_properties (fun _ => 0) dbThree "u2" prOpen "u3" (by rfl) (by decide)

/-- C3 counterexample: when the old reviewer is not currently assigned,
the exclusion set does not contain it, and the search may return the old
reviewer itself: in dbTwoNoAssign the replacement for u2 is u2. -/
theorem C3_counterexample :
    ReviewerAssignmentService.find_replacement_reviewer (fun _ => 0) dbTwoNoAssign
      "u2" prOpen = .ok "u2" := by
  rfl

/-- C1 (amended): on stores satisfying the key and referential
invariants and holding no empty user id, each of the three PR operations
preserves the invariant that no PR counts its author among its assigned
reviewers and that no PR has more than 2 assigned reviewers. -/
theorem C1_invariant_preservation (g₁ g₃ : Nat → Nat) (db : DB)
    (now₁ now₂ now₃ : Nat) (pid₁ name₁ author₁ pid₂ pid₃ old₃ : String)
    (hWF : WF db) (hids : NoEmptyIds db) :
    WF (PullRequestService.create_pr_with_reviewers g₁ db now₁ pid₁ name₁ author₁).1
    ∧ WF (PullRequestService.merge_pr db now₂ pid₂).1
    ∧ WF (PullRequestService.reassign_reviewer g₃ db now₃ pid₃ old₃).1 :=
  ⟨WF_create_pr g₁ db now₁ pid₁ name₁ author₁ hWF hids,
   WF_merge_pr db now₂ pid₂ hWF,
   WF_reassign_reviewer g₃ db now₃ pid₃ old₃ hWF⟩

/-- C1 witness: the three operations keep dbThree well formed. -/
theorem C1_witness :
    WF (PullRequestService.create_pr_with_reviewers (fun _ => 0) dbThree 4 "q" "n" "a").1
    ∧ WF (PullRequestService.merge_pr dbThree 5 "p").1
    ∧ WF (PullRequestService.reassign_reviewer (fun _ => 0) dbThree 6 "p" "u2").1 :=
  C1_invariant_preservation (fun _ => 0) (fun _ => 0) dbThree 4 5 6 "q" "n" "a" "p" "p"
    "u2" (by unfold WF; decide) (by unfold NoEmptyIds; decide)

/-- C1 counterexample: from the empty store, creating a team whose only
member carries the empty string as user id and then a PR authored by
that user yields a reachable store in which the author of the PR is one
of its own assigned reviewers: the Python truthiness test on the
exclusion argument skips the author exclusion for an empty author id. -/
theorem C1_counterexample :
    ∃ p ∈ dbEmptyIdAfterCreate.prs,
      p.author_id ∈ PRReviewerCRUD.get_reviewer_ids dbEmptyIdAfterCreate
        p.pull_request_id := by
  decide

end CRA
